import Mathlib

/-!
# OREvaultMiner — verification of the mining backend against its specification

Shallow embedding of the Rust backend (`src/backend/src/`) of OREvaultMiner:
the ORE v3 strategy engine (`strategy.rs`), chain client (`ore.rs`), Jito
bundle client (`jito.rs`), wallet signer (`wallet.rs`) and the HTTP session
handler (`main.rs`).  Machine integers (`u64`) are modelled as `Nat` with
explicit saturation where the source saturates; `f64` expected-value
arithmetic is modelled over `ℚ` with the `as u64` cast made explicit as a
floor; fallible Rust functions returning `Result`/`Option` become
`Except`/`Option`.
-/

namespace OREvault

/-- `u64::MAX`. -/
def u64Max : Nat := 2 ^ 64 - 1

/-- `u64::saturating_mul` on the `Nat` model of `u64`. -/
def satMulU64 (a b : Nat) : Nat := min (a * b) u64Max

/-! ## Chain data model (`ore.rs`) -/

/-- `BoardState` from `ore.rs`: decoded board account. -/
structure BoardState where
  roundId : Nat
  startSlot : Nat
  endSlot : Nat
  epochId : Nat
deriving Repr, DecidableEq

/-- `MinerData` from `ore.rs`: decoded per-wallet Miner account. -/
structure MinerData where
  authority : List Nat
  deployed : List Nat
  cumulative : List Nat
  checkpointFee : Nat
  checkpointId : Nat
  rewardsSol : Nat
  rewardsOre : Nat
  refinedOre : Nat
  roundId : Nat
  lifetimeRewardsSol : Nat
  lifetimeRewardsOre : Nat
  lifetimeDeployed : Nat
deriving Repr, DecidableEq

/-- Read a little-endian `u64` from a byte list at `off`
(`u64::from_le_bytes(data[off..off+8])`).  The model pads with zero bytes
where the Rust slice indexing would require the buffer to be long enough;
all theorems use it only on inputs of sufficient length. -/
def readU64LE (data : List Nat) (off : Nat) : Nat :=
  (List.range 8).foldr (fun i acc => acc * 256 + data.getD (off + i) 0) 0

/-- Read `n` raw bytes from a byte list at `off`. -/
def readBytes (data : List Nat) (off n : Nat) : List Nat :=
  ((data.drop off).take n)

/-- Decode the Miner account body (the bytes after the 8-byte
discriminator) exactly in the field order of `ore.rs::get_miner_data`:
authority (32) · deployed (25×8) · cumulative (25×8) · checkpoint_fee (8) ·
checkpoint_id (8) · two i64 timestamps (16, skipped) · 16-byte numeric
(skipped) · rewards_sol (8) · rewards_ore (8) · refined_ore (8) ·
round_id (8) · three lifetime counters (24). -/
def decodeMinerBody (b : List Nat) : MinerData :=
  { authority := readBytes b 0 32
    deployed := (List.range 25).map fun i => readU64LE b (32 + 8 * i)
    cumulative := (List.range 25).map fun i => readU64LE b (232 + 8 * i)
    checkpointFee := readU64LE b 432
    checkpointId := readU64LE b 440
    rewardsSol := readU64LE b 480
    rewardsOre := readU64LE b 488
    refinedOre := readU64LE b 496
    roundId := readU64LE b 504
    lifetimeRewardsSol := readU64LE b 512
    lifetimeRewardsOre := readU64LE b 520
    lifetimeDeployed := readU64LE b 528 }

/-- `OreClient::get_miner_data`.  The input is the result of
`rpc.get_account(miner_pda)`: either an RPC error or the raw account data.
The source maps *any* fetch error to `Ok(None)` (`Err(_) => Ok(None)`),
returns `Ok(None)` when the data is shorter than the 8-byte discriminator,
and otherwise decodes the body after the discriminator. -/
def getMinerData (fetch : Except String (List Nat)) :
    Except String (Option MinerData) :=
  match fetch with
  | .error _ => .ok none
  | .ok data =>
    if data.length < 8 then .ok none
    else .ok (some (decodeMinerBody (data.drop 8)))

/-! ## Expected-value calculation (`strategy.rs::calculate_block_ev`)

The Rust code computes in `f64`; the model computes in `ℚ` with the single
narrowing cast `(total_pot as f64 * our_share) as u64` made explicit as a
floor (for the values reachable here the cast truncates toward zero and
does not saturate, and the `f64` products involved are exact or within
`2⁻⁵⁰` of the rational value, far below the discrepancies the theorems
exhibit). -/

/-- `BlockEv` from `strategy.rs` (rational model of the `f64` fields). -/
structure BlockEv where
  index : Nat
  totalDeployed : Nat
  potentialReward : Nat
  ev : ℚ
  tipCost : Nat
deriving Repr, DecidableEq

/-- `our_share` from `calculate_block_ev`: `deploy_amount / (block.total_deployed
+ deploy_amount)` when the new block total is positive, else `1.0`. -/
def ourShare (blockDeployed deployAmount : Nat) : ℚ :=
  if blockDeployed + deployAmount > 0 then
    (deployAmount : ℚ) / ((blockDeployed + deployAmount : Nat) : ℚ)
  else 1

/-- `potential_reward = (total_pot as f64 * our_share) as u64`. -/
def potentialReward (totalPot blockDeployed deployAmount : Nat) : Nat :=
  (⌊(totalPot : ℚ) * ourShare blockDeployed deployAmount⌋).toNat

/-- `StrategyEngine::calculate_block_ev`:
`ev = potential_reward * (1/25) - tip_cost`. -/
def calculateBlockEv (index : Nat) (blockDeployed totalPot deployAmount tipCost : Nat) :
    BlockEv :=
  let pr := potentialReward totalPot blockDeployed deployAmount
  { index := index
    totalDeployed := blockDeployed
    potentialReward := pr
    ev := (pr : ℚ) * (1 / 25) - (tipCost : ℚ)
    tipCost := tipCost }

/-- `StrategyEngine::calculate_all_ev` over a 25-entry grid of deployed
amounts. -/
def calculateAllEv (deployed : List Nat) (totalPot deployAmount tipCost : Nat) :
    List BlockEv :=
  (deployed.enum.map fun p => calculateBlockEv p.1 p.2 totalPot deployAmount tipCost)

/-- The §4.5 specification formula, written from the spec's words (for the
refinement comparison of claim C6): `ev_i = (share_i × total_deployed) / 25 − tip`
with `share_i = per_square_amount / (deployed[i] + per_square_amount)`. -/
def specEvFormula (blockDeployed totalPot deployAmount tipCost : Nat) : ℚ :=
  ((deployAmount : ℚ) / ((blockDeployed : ℚ) + (deployAmount : ℚ))) * (totalPot : ℚ) / 25
    - (tipCost : ℚ)

/-! ## Round decision and square selection (`strategy.rs::mining_loop`) -/

/-- `RoundDecision` from `strategy.rs`. -/
inductive RoundDecision where
  | deploy (blockIndex : Nat) (expectedEv : ℚ) (deployAmount tipAmount : Nat)
  | skip (reason : String) (bestEv : ℚ)
deriving Repr, DecidableEq

/-- Whether a decision is a `Skip`. -/
def RoundDecision.isSkip : RoundDecision → Bool
  | .skip _ _ => true
  | .deploy _ _ _ _ => false

/-- Insert `x` after every element that strictly precedes it under `lt`
(the insertion step of a stable sort: an existing element equivalent to `x`
stays in front of it). -/
def insertByLt (lt : α → α → Bool) (x : α) : List α → List α
  | [] => [x]
  | y :: ys => if lt y x then y :: insertByLt lt x ys else x :: y :: ys

/-- Stable sort by the strict-precedence test `lt`: elements neither of
which strictly precedes the other keep their original relative order.
This is the guarantee of Rust's stable `slice::sort_by_key`, which the
model uses wherever the source sorts. -/
def stableSortByLt (lt : α → α → Bool) : List α → List α
  | [] => []
  | x :: xs => insertByLt lt x (stableSortByLt lt xs)

/-- The square selection of `mining_loop` (PHASE 3, lines 288–309): pair
every square with its stake, stable-sort by stake ascending
(`sort_by_key(|(_, stake)| *stake)`, ties keep ascending index order), and
take the `num_blocks` lowest.  Returns the selected square indices in
selection order. -/
def selectLowestStake (deployed : List Nat) (numBlocks : Nat) : List Nat :=
  let sorted := stableSortByLt
    (fun a b : Nat × Nat => decide (a.2 < b.2)) deployed.enum
  (sorted.take numBlocks).map (·.1)

/-- The selected-squares mask built in `mining_loop` (lines 334–342). -/
def selectedSquaresMask (selected : List Nat) : List Bool :=
  (List.range 25).map fun i => selected.contains i

/-- The decision constructed by `mining_loop` (lines 288–331): always a
`Deploy` whose primary block is the first selected square (`unwrap_or(0)`)
and whose expected EV is that square's entry in `block_evs`
(`unwrap_or(0.0)`). No `Skip` is ever produced here. -/
def miningLoopDecision (deployed : List Nat) (totalPot deployAmount tipCost numBlocks : Nat) :
    RoundDecision :=
  let blockEvs := calculateAllEv deployed totalPot deployAmount tipCost
  let selected := selectLowestStake deployed numBlocks
  let firstBlock := selected.headD 0
  let blockEv := ((blockEvs.find? fun b => b.index == firstBlock).map (·.ev)).getD 0
  .deploy firstBlock blockEv deployAmount tipCost

/-- The BEST_EV selection policy as the spec states it (§4.5, for the
refinement comparison of claim C5): sort squares by **descending** `ev_i`,
ties broken by **ascending** square index, and take the top `num_squares`. -/
def specBestEvSelection (deployed : List Nat) (totalPot deployAmount tipCost numSquares : Nat) :
    List Nat :=
  let blockEvs := calculateAllEv deployed totalPot deployAmount tipCost
  (((stableSortByLt
      (fun (a b : BlockEv) =>
        decide (a.ev > b.ev) || (decide (a.ev = b.ev) && decide (a.index < b.index)))
      blockEvs).take numSquares).map (·.index))

/-- The AGGRESSIVE selection policy as the spec states it (§4.5, for the
refinement comparison of claim C5): sort squares by **descending**
potential reward, ties broken by **ascending** square index, and take the
top `num_squares`. -/
def specAggressiveSelection (deployed : List Nat)
    (totalPot deployAmount tipCost numSquares : Nat) : List Nat :=
  let blockEvs := calculateAllEv deployed totalPot deployAmount tipCost
  (((stableSortByLt
      (fun (a b : BlockEv) =>
        decide (a.potentialReward > b.potentialReward) ||
          (decide (a.potentialReward = b.potentialReward) && decide (a.index < b.index)))
      blockEvs).take numSquares).map (·.index))

/-! ## `strategy.rs::make_decision` (the EV-ranking fallback path)

`make_decision` is reachable only as the fallback of `make_ai_decision`;
the live `mining_loop` never calls it.  Rust's `Iterator::max_by` returns
the *last* maximal element and `min_by_key` the *first* minimal one. -/

/-- Rust `Iterator::max_by` over a comparison `le` (a left fold that
replaces the accumulator whenever it is ≤ the new element, so the *last*
maximal element wins ties). -/
def rustMaxBy (le : α → α → Bool) (l : List α) : Option α :=
  l.foldl
    (fun acc x =>
      match acc with
      | none => some x
      | some m => if le m x then some x else some m)
    none

/-- Rust `Iterator::min_by_key` (a left fold that replaces the accumulator
only on a strict decrease, so the *first* minimal element wins ties). -/
def rustMinByKey (key : α → Nat) (l : List α) : Option α :=
  l.foldl
    (fun acc x =>
      match acc with
      | none => some x
      | some m => if key x < key m then some x else some m)
    none

/-- The three strategies of `main.rs`. -/
inductive Strategy where
  | bestEv
  | conservative
  | aggressive
deriving Repr, DecidableEq

/-- `StrategyEngine::make_decision`: picks one best block per the strategy
and **always** returns `Deploy` (falling back to block 0 on an empty list);
no branch produces `Skip`. -/
def makeDecision (blockEvs : List BlockEv) (strategy : Strategy)
    (deployAmount tipCost : Nat) : RoundDecision :=
  let bestBlock :=
    match strategy with
    | .bestEv => rustMaxBy (fun (a b : BlockEv) => decide (a.ev ≤ b.ev)) blockEvs
    | .conservative => rustMinByKey (fun (b : BlockEv) => b.totalDeployed) blockEvs
    | .aggressive =>
      rustMaxBy (fun (a b : BlockEv) => decide (a.potentialReward ≤ b.potentialReward)) blockEvs
  match bestBlock with
  | some block => .deploy block.index block.ev deployAmount tipCost
  | none => .deploy 0 0 deployAmount tipCost

/-! ## Submission-window polling (`strategy.rs::wait_for_submission_window`) -/

/-- `SUBMISSION_WINDOW_SLOTS` (the spec's `W_END`). -/
def submissionWindowSlots : Nat := 10

/-- `slots_remaining` as computed in the loop body:
`if current_slot >= board.end_slot { 0 } else { board.end_slot - current_slot }`. -/
def slotsRemaining (endSlot currentSlot : Nat) : Nat :=
  if currentSlot ≥ endSlot then 0 else endSlot - currentSlot

/-- Outcome of one iteration of the polling loop once a cached board and a
current slot are available. -/
inductive WindowStep where
  /-- `board.end_slot == u64::MAX`: round not started; sleep 200ms. -/
  | notStarted
  /-- `slots_remaining == 0`: drop the cached board; sleep 50ms. -/
  | roundOver
  /-- `slots_remaining ∈ (0, SUBMISSION_WINDOW_SLOTS]`: fetch the round
  state and enter Phase B. -/
  | enterPhaseB (slotsLeft : Nat)
  /-- Otherwise keep polling after `sleepMs` milliseconds. -/
  | keepPolling (sleepMs : Nat)
deriving Repr, DecidableEq

/-- The dynamic polling cadence of `wait_for_submission_window`. -/
def pollCadenceMs (slotsLeft : Nat) : Nat :=
  if slotsLeft > 120 then 250
  else if slotsLeft > 60 then 120
  else if slotsLeft > 25 then 60
  else 30

/-- The failure back-off of `wait_for_submission_window`. -/
def failureBackoffMs (consecutiveFailures : Nat) : Nat :=
  if consecutiveFailures ≤ 2 then 0
  else if consecutiveFailures ≤ 6 then 50
  else 150

/-- One iteration of `wait_for_submission_window` after the board and slot
reads succeed, following the source branch order: the `u64::MAX`
"round hasn't started" check comes first, then `slots_remaining == 0`,
then the `<= SUBMISSION_WINDOW_SLOTS` Phase-B trigger. -/
def windowStep (endSlot currentSlot consecutiveFailures : Nat) : WindowStep :=
  if endSlot = u64Max then .notStarted
  else
    let sr := slotsRemaining endSlot currentSlot
    if sr = 0 then .roundOver
    else if sr ≤ submissionWindowSlots then .enterPhaseB sr
    else .keepPolling (pollCadenceMs sr + failureBackoffMs consecutiveFailures)

/-! ## Transaction sequencing (`strategy.rs::submit_deploy`)

`submit_deploy` is modelled as a pure function over an environment record
holding the outcome of every external interaction it performs, in program
order.  Its result is the ordered list of transactions handed to
`ore_client.send_transaction` (the submission trace) together with the
function's `Result`.  Confirmation waiting (`confirm_transaction` and the
5×400ms miner-state re-polls) only logs and never changes control flow or
the trace, so the model keeps the outcomes but does not branch on them. -/

/-- An instruction as built by `submit_deploy` ∕ `ore.rs` builders. -/
inductive Ix where
  | computeUnitLimit (units : Nat)
  | computeUnitPrice (microLamports : Nat)
  | checkpoint (roundId : Nat)
  | automate (amountPerSquare deposit fee mask strategyKind : Nat) (reload : Bool)
  | deploy (amount roundId : Nat) (squares : List Bool)
deriving Repr, DecidableEq

/-- A transaction handed to `send_transaction` (always signed at that
point: every send in `submit_deploy` follows a successful
`sign_transaction`). -/
structure Tx where
  instructions : List Ix
  payerIsWallet : Bool
  blockhash : Nat
  signed : Bool
deriving Repr, DecidableEq

instance : Inhabited Tx := ⟨⟨[], true, 0, false⟩⟩

/-- The checkpoint-needed test of `submit_deploy` (lines 751–768):
`(m.checkpoint_id != m.round_id) || (m.round_id > 0 && m.round_id < board.round_id)`. -/
def needsCheckpoint (m : MinerData) (boardRoundId : Nat) : Bool :=
  (m.checkpointId ≠ m.roundId : Bool) || (decide (m.roundId > 0) && decide (m.roundId < boardRoundId))

/-- `needs_checkpoint` on the optional miner account: a missing Miner PDA
needs no checkpoint. -/
def needsCheckpointOpt (m : Option MinerData) (boardRoundId : Nat) : Bool :=
  match m with
  | some m => needsCheckpoint m boardRoundId
  | none => false

/-- Environment of one `submit_deploy` call: the results of its external
interactions, in program order. -/
structure DeployEnv where
  /-- `wallet.parse()` succeeds. -/
  walletValid : Bool
  /-- `ore_client.get_board_state()` (propagated with `?`). -/
  board : Except String BoardState
  /-- `ore_client.get_miner_data(..)` — always `Ok` in the source
  (any fetch error already became `Ok(None)` inside `get_miner_data`). -/
  miner : Option MinerData
  /-- `wallet_manager` is `Some`. -/
  hasWalletManager : Bool
  /-- `wm.has_keypair(wallet)` / whether `wm.sign_transaction` succeeds. -/
  hasKeypair : Bool
  /-- blockhash fetched for the checkpoint transaction (propagated with `?`). -/
  cpBlockhash : Except String Nat
  /-- `send_transaction` result for the checkpoint (failure only logged). -/
  cpSendResult : Except String String
  /-- checkpoint confirmation outcome (only logged). -/
  cpConfirmed : Bool
  /-- `get_automation_balance` (errors collapsed by `unwrap_or(0)`). -/
  automationBalanceFetch : Except String Nat
  /-- blockhash fetched for the automate transaction (propagated with `?`). -/
  autoBlockhash : Except String Nat
  /-- `send_transaction` result for the automate tx (failure only logged). -/
  autoSendResult : Except String String
  /-- automate confirmation outcome (only logged). -/
  autoConfirmed : Bool
  /-- blockhash fetched for the deploy transaction (propagated with `?`). -/
  deployBlockhash : Except String Nat
  /-- `send_transaction` result for the deploy transaction. -/
  deploySendResult : Except String String

/-- The automation balance as `submit_deploy` reads it:
`get_automation_balance(..).await.unwrap_or(0)` — a fetch error reads
as a zero balance. -/
def automationBalance (env : DeployEnv) : Nat :=
  match env.automationBalanceFetch with
  | .ok b => b
  | .error _ => 0

/-- Checkpoint phase of `submit_deploy` (lines 745–841).  Returns the
transactions sent and `some err` when a `?` aborts the whole call.
The blockhash is fetched before the wallet-manager check, a missing
wallet manager only warns, and a signing failure aborts via
`.context("Failed to sign checkpoint transaction")?`. -/
def checkpointPhase (env : DeployEnv) (boardRoundId : Nat) :
    List Tx × Option String :=
  match env.miner with
  | none => ([], none)
  | some m =>
    if needsCheckpoint m boardRoundId then
      match env.cpBlockhash with
      | .error e => ([], some e)
      | .ok bh =>
        if env.hasWalletManager then
          if env.hasKeypair then
            ([{ instructions :=
                  [.computeUnitLimit 50000, .computeUnitPrice 100000,
                    .checkpoint m.roundId]
                payerIsWallet := true, blockhash := bh, signed := true }], none)
          else ([], some "Failed to sign checkpoint transaction")
        else ([], none)
    else ([], none)

/-- `needed_balance = deploy_amount.saturating_mul(num_squares.max(1))`
where `num_squares` counts the `true` entries of the square mask
(`submit_deploy`, lines 849–850). -/
def neededBalance (deployAmount : Nat) (squares : List Bool) : Nat :=
  satMulU64 deployAmount (max (squares.filter id).length 1)

/-- `deposit_needed`: zero when the automation balance covers
`needed_balance`, else the shortfall (`submit_deploy`, lines 856–861). -/
def depositNeeded (env : DeployEnv) (deployAmount : Nat) (squares : List Bool) :
    Nat :=
  if automationBalance env ≥ neededBalance deployAmount squares then 0
  else neededBalance deployAmount squares - automationBalance env

/-- Automation-funding phase of `submit_deploy` (lines 843–918): an
`automate` transaction (amount per square, deposit, executor = self,
fee 0, mask 0, strategy Discretionary = 2, reload false) only when
`deposit_needed > 0`. -/
def automatePhase (env : DeployEnv) (deployAmount : Nat) (squares : List Bool) :
    List Tx × Option String :=
  let depositNeeded := depositNeeded env deployAmount squares
  if depositNeeded > 0 then
    match env.autoBlockhash with
    | .error e => ([], some e)
    | .ok bh =>
      if env.hasWalletManager then
        if env.hasKeypair then
          ([{ instructions :=
                [.computeUnitLimit 400000, .computeUnitPrice 100000,
                  .automate deployAmount depositNeeded 0 0 2 false]
              payerIsWallet := true, blockhash := bh, signed := true }], none)
        else ([], some "Failed to sign automate transaction")
      else ([], none)
  else ([], none)

/-- Deploy phase of `submit_deploy` (lines 920–974): compute-budget
prefix (limit 500 000 CU, price 100 000 micro-lamports/CU) plus the
deploy instruction; when server-side signing is available the transaction
is signed and sent via RPC, otherwise a `pending_signature_…` placeholder
is returned and nothing is sent. -/
def deployPhase (env : DeployEnv) (boardRoundId deployAmount : Nat)
    (squares : List Bool) : List Tx × Except String String :=
  match env.deployBlockhash with
  | .error e => ([], .error e)
  | .ok bh =>
    if env.hasWalletManager && env.hasKeypair then
      let tx : Tx :=
        { instructions :=
            [.computeUnitLimit 500000, .computeUnitPrice 100000,
              .deploy deployAmount boardRoundId squares]
          payerIsWallet := true, blockhash := bh, signed := true }
      match env.deploySendResult with
      | .ok sig => ([tx], .ok sig)
      | .error e => ([tx], .error ("RPC send failed: " ++ e))
    else ([], .ok "pending_signature")

/-- `StrategyEngine::submit_deploy`: wallet parse, board fetch, checkpoint
phase, automation phase, deploy phase, in that order; any abort keeps the
transactions already sent in the trace. -/
def submitDeploy (env : DeployEnv) (deployAmount : Nat) (squares : List Bool) :
    List Tx × Except String String :=
  if env.walletValid then
    match env.board with
    | .error e => ([], .error e)
    | .ok board =>
      match checkpointPhase env board.roundId with
      | (cpTxs, some e) => (cpTxs, .error e)
      | (cpTxs, none) =>
        match automatePhase env deployAmount squares with
        | (autoTxs, some e) => (cpTxs ++ autoTxs, .error e)
        | (autoTxs, none) =>
          let (depTxs, res) := deployPhase env board.roundId deployAmount squares
          (cpTxs ++ autoTxs ++ depTxs, res)
  else ([], .error "Invalid wallet address")

/-- Whether a transaction carries a deploy instruction. -/
def txHasDeploy (t : Tx) : Bool :=
  t.instructions.any fun ix =>
    match ix with
    | .deploy _ _ _ => true
    | _ => false

/-- Whether a transaction carries a checkpoint instruction. -/
def txHasCheckpoint (t : Tx) : Bool :=
  t.instructions.any fun ix =>
    match ix with
    | .checkpoint _ => true
    | _ => false

/-- Whether a transaction carries a checkpoint instruction settling
round `r`. -/
def txHasCheckpointFor (r : Nat) (t : Tx) : Bool :=
  t.instructions.any fun ix =>
    match ix with
    | .checkpoint r' => r' == r
    | _ => false

/-- Whether a transaction carries an automate instruction. -/
def txHasAutomate (t : Tx) : Bool :=
  t.instructions.any fun ix =>
    match ix with
    | .automate _ _ _ _ _ _ => true
    | _ => false

/-- Whether a transaction carries an automate instruction with the given
deposit. -/
def txHasAutomateDeposit (deposit : Nat) (t : Tx) : Bool :=
  t.instructions.any fun ix =>
    match ix with
    | .automate _ d _ _ _ _ => d == deposit
    | _ => false

/-! ## Bundle submission (`jito.rs::send_bundle`)

`send_bundle` loops over the encodings `[Base64, Base58]`.  Each attempt's
endpoint interaction is one `EndpointResponse`; the model takes the
response to the base64 attempt and the response the endpoint *would* give
to a base58 retry, and returns the bundle status together with the list of
encodings actually attempted. -/

/-- The two wire encodings tried by `send_bundle`. -/
inductive TxEncoding where
  | base64
  | base58
deriving Repr, DecidableEq

/-- One endpoint interaction, as `send_bundle` distinguishes them:
a transport error from `client.post(..).send()`, an HTTP-success response
whose parsed JSON may carry a JSON-RPC `error` field, or an HTTP error
status with a body. -/
inductive EndpointResponse where
  | netErr (msg : String)
  | httpOk (jsonError : Option String)
  | httpErr (status : Nat) (body : String)
deriving Repr, DecidableEq

/-- Bundle status (`jito.rs::BundleStatus`, the variants `send_bundle` can
produce). -/
inductive BundleStatus where
  | pending
  | failed (reason : String)
deriving Repr, DecidableEq

/-- Whether `pat` occurs as a contiguous subsequence of a character list
(`str::contains` on the model level). -/
def occursIn (pat : List Char) : List Char → Bool
  | [] => pat.isEmpty
  | c :: cs => pat.isPrefixOf (c :: cs) || occursIn pat cs

/-- The `reason` string built for an HTTP error:
`format!("HTTP {}: {}", status, body)`. -/
def httpReason (status : Nat) (body : String) : String :=
  "HTTP " ++ toString status ++ ": " ++ body

/-- The second decode phrase of `send_bundle`, spelled with an explicit
U+0027 so the source text stays ASCII-clean: `couldn` ++ `'` ++
`t be decoded`. -/
def decodePhraseContraction : List Char :=
  "couldn".data ++ [Char.ofNat 39] ++ "t be decoded".data

/-- The decode-failure test of `send_bundle`: the lowercased reason
(`to_lowercase`, modelled per character) contains one of the three
"could not be decoded" phrasings. -/
def isDecodeErrText (reason : String) : Bool :=
  let lc := reason.data.map Char.toLower
  occursIn "could not be decoded".data lc
    || occursIn decodePhraseContraction lc
    || occursIn "cannot be decoded".data lc

/-- Outcome of a single loop iteration of `send_bundle` for one encoding:
either a final `BundleStatus` or (only possible for base64) fall through
to the base58 retry, remembering the HTTP reason. -/
def bundleAttempt (enc : TxEncoding) (resp : EndpointResponse) :
    Except String BundleStatus :=
  match resp with
  | .netErr m => .ok (.failed m)
  | .httpOk none => .ok .pending
  | .httpOk (some err) => .ok (.failed err)
  | .httpErr status body =>
    let reason := httpReason status body
    if isDecodeErrText reason && (enc == .base64) then .error reason
    else .ok (.failed reason)

/-- `JitoClient::send_bundle`: try base64; on an HTTP-level decode error
retry once with base58; return the final status and the encodings
attempted. -/
def sendBundle (base64Resp base58Resp : EndpointResponse) :
    BundleStatus × List TxEncoding :=
  match bundleAttempt .base64 base64Resp with
  | .ok st => (st, [.base64])
  | .error _ =>
    match bundleAttempt .base58 base58Resp with
    | .ok st => (st, [.base64, .base58])
    | .error reason => (.failed reason, [.base64, .base58])

/-! ## Signer (`wallet.rs::sign_transaction`) -/

/-- A transaction as the signer sees it.  `blockhashAgeSecs` is the age of
`tx.message.recent_blockhash` at signing time; the source never reads any
clock, so this field is carried only to state age-related properties. -/
structure SignerTx where
  blockhashAgeSecs : Nat
  signed : Bool
deriving Repr, DecidableEq

/-- `WalletManager::sign_transaction`: bail with "Wallet not found" when no
keypair is stored for the wallet, otherwise sign with the stored keypair
(`try_sign` against the transaction's own `recent_blockhash`) and return
`Ok`.  There is no inspection of the blockhash's age anywhere in the
function. -/
def signTransaction (hasKeypair : Bool) (tx : SignerTx) :
    Except String SignerTx :=
  if hasKeypair then .ok { tx with signed := true }
  else .error "Wallet not found"

/-! ## Session registry (`strategy.rs::start_session`, `main.rs::start_session`) -/

/-- The mutable state of `StrategyEngine` that `start_session` touches:
the wallet-keyed `active_sessions` map (modelled as an association list
with `HashMap::insert` replace semantics) plus a count of driver tasks
spawned with `tokio::spawn`. -/
structure EngineState where
  sessions : List (String × Nat)
  driversSpawned : Nat
deriving Repr, DecidableEq

/-- `HashMap::insert`: replace any binding for the key. -/
def insertSession (sessions : List (String × Nat)) (wallet : String)
    (sessionId : Nat) : List (String × Nat) :=
  (wallet, sessionId) :: sessions.filter fun p => p.1 ≠ wallet

/-- `StrategyEngine::start_session`: unconditionally insert the session
into `active_sessions` (replacing any previous binding) and spawn a new
mining-loop task.  The source performs no check that a session is already
running for the wallet and returns no error. -/
def engineStartSession (st : EngineState) (wallet : String) (sessionId : Nat) :
    EngineState :=
  { sessions := insertSession st.sessions wallet sessionId
    driversSpawned := st.driversSpawned + 1 }

/-- `StrategyEngine::stop_session`: remove the wallet's entry (and signal
its cancel channel) when present. -/
def engineStopSession (st : EngineState) (wallet : String) : EngineState :=
  { st with sessions := st.sessions.filter fun p => p.1 ≠ wallet }

/-- The `main.rs::start_session` HTTP handler: validate the SOL amounts
(`deploy_amount ∈ (0, 10]`, `max_tip ∈ [0, 1]`, `budget > 0`, each also
required finite — always true in the `ℚ` model), create the DB session
row, and on success call `StrategyEngine::start_session`.  No branch
inspects whether the wallet already has an active session. -/
def startSessionHandler (st : EngineState) (wallet : String)
    (deployAmount maxTip budget : ℚ) (dbCreateOk : Bool) (sessionId : Nat) :
    EngineState × Except String Nat :=
  if ¬(0 < deployAmount ∧ deployAmount ≤ 10) then
    (st, .error "deploy_amount must be > 0 and <= 10 (SOL)")
  else if ¬(0 ≤ maxTip ∧ maxTip ≤ 1) then
    (st, .error "max_tip must be >= 0 and <= 1 (SOL)")
  else if ¬(0 < budget) then
    (st, .error "budget must be > 0 (SOL)")
  else if dbCreateOk then
    (engineStartSession st wallet sessionId, .ok sessionId)
  else (st, .error "db error")

/-! ## Auxiliary constants for the numerical claims -/

/-- An upper bound on one unit in the last place (ULP) of any IEEE-754
double of magnitude at most 4: a double in `[2^e, 2^(e+1))` has ULP
`2^(e−52)`, so for magnitudes `< 4 = 2²` the ULP is at most `2⁻⁵⁰`.  All
`f64` quantities compared in the EV claims have magnitude well below 4, so
any "within 1 ULP" tolerance is below this bound. -/
def doubleUlpBoundSmall : ℚ := 1 / 2 ^ 50

/-- A fully successful `submit_deploy` environment used by the concrete
witnesses: wallet parses, board at round 103, server-side signing
available, every RPC call succeeds. -/
def happyEnv (miner : Option MinerData) (balanceFetch : Except String Nat) :
    DeployEnv :=
  { walletValid := true
    board := .ok { roundId := 103, startSlot := 1000, endSlot := 1150, epochId := 1 }
    miner := miner
    hasWalletManager := true
    hasKeypair := true
    cpBlockhash := .ok 11
    cpSendResult := .ok "cpsig"
    cpConfirmed := true
    automationBalanceFetch := balanceFetch
    autoBlockhash := .ok 12
    autoSendResult := .ok "autosig"
    autoConfirmed := true
    deployBlockhash := .ok 13
    deploySendResult := .ok "deploysig" }

/-- A miner account with unsettled prior participation
(`round_id_last = 101`, `checkpoint_id = 100`), the spec's scenario 3. -/
def minerNeedingCheckpoint : MinerData :=
  { authority := List.replicate 32 0
    deployed := List.replicate 25 0
    cumulative := List.replicate 25 0
    checkpointFee := 0
    checkpointId := 100
    rewardsSol := 0
    rewardsOre := 0
    refinedOre := 0
    roundId := 101
    lifetimeRewardsSol := 0
    lifetimeRewardsOre := 0
    lifetimeDeployed := 0 }

/-! # Theorems -/

/-! ## C10 — RPC failures are indistinguishable from a missing miner account -/

/-- **C10** (confirmed).  `OreClient::get_miner_data` maps *every* account
fetch error — RPC and network failures included, not only account absence —
to `Ok(None)`, so at this interface chain unavailability is
indistinguishable from a non-existent participant account; downstream,
`submit_deploy` treats that `None` as "no checkpoint needed" for every
board round. -/
theorem c10_rpc_error_reads_as_no_miner (e : String) (boardRoundId : Nat) :
    getMinerData (.error e) = .ok none ∧
      needsCheckpointOpt none boardRoundId = false :=
  ⟨rfl, rfl⟩

/-! ## C2 — there is no uniform-grid skip: the engine always deploys -/

/-- **C2, counterexample.**  On the spec's own literal scenario 1 — a
uniform grid `deployed = [10⁹]×25`, `num_squares = 3` — the mining loop's
decision is a `Deploy` with primary square 0, not `Skip{"uniform grid"}`. -/
theorem c2_uniform_grid_counterexample :
    (miningLoopDecision (List.replicate 25 1000000000) 25000000000
        100000000 1000000 3).isSkip = false ∧
      ∃ ev, miningLoopDecision (List.replicate 25 1000000000) 25000000000
          100000000 1000000 3 =
        .deploy 0 ev 100000000 1000000 := by
  have hsel : selectLowestStake (List.replicate 25 1000000000) 3 = [0, 1, 2] := by
    decide
  refine ⟨rfl,
    ⟨(((calculateAllEv (List.replicate 25 1000000000) 25000000000 100000000
          1000000).find? fun b => b.index == 0).map (fun b => b.ev)).getD 0, ?_⟩⟩
  simp only [miningLoopDecision, hsel]
  rfl

/-- **C2, amended** (corrected).  The selection engine never skips: for
every grid snapshot — uniform or not — the mining loop's decision is a
`Deploy`, and the `make_decision` fallback likewise returns `Deploy` for
every strategy and every EV list.  No `Skip{"uniform grid"}` branch exists
anywhere. -/
theorem c2_engine_always_deploys
    (deployed : List Nat) (totalPot deployAmount tipCost numBlocks : Nat)
    (blockEvs : List BlockEv) (strategy : Strategy) :
    (miningLoopDecision deployed totalPot deployAmount tipCost numBlocks).isSkip
        = false ∧
      (makeDecision blockEvs strategy deployAmount tipCost).isSkip = false := by
  refine ⟨rfl, ?_⟩
  unfold makeDecision
  rcases strategy
  · rcases h : rustMaxBy (fun (a b : BlockEv) => decide (a.ev ≤ b.ev)) blockEvs <;>
      simp [h, RoundDecision.isSkip]
  · rcases h : rustMinByKey (fun (b : BlockEv) => b.totalDeployed) blockEvs <;>
      simp [h, RoundDecision.isSkip]
  · rcases h : rustMaxBy
        (fun (a b : BlockEv) => decide (a.potentialReward ≤ b.potentialReward)) blockEvs <;>
      simp [h, RoundDecision.isSkip]

/-! ## C4 — Phase-B entry window -/

/-- **C4, counterexample.**  The claim's "enters Phase B exactly when
`slots_remaining ∈ (0, 10]`" fails at the not-yet-started sentinel: with
`end_slot = u64::MAX` and `current_slot = u64::MAX − 5` the computed
`slots_remaining` is 5 ∈ (0, 10], yet the loop takes the
"round hasn't started" branch and never enters Phase B. -/
theorem c4_sentinel_counterexample :
    slotsRemaining u64Max (u64Max - 5) = 5 ∧
      (0 < 5 ∧ 5 ≤ submissionWindowSlots) ∧
      windowStep u64Max (u64Max - 5) 0 = .notStarted ∧
      ∀ s, windowStep u64Max (u64Max - 5) 0 ≠ .enterPhaseB s := by
  refine ⟨by decide, by decide, by decide, ?_⟩
  intro s
  have h : windowStep u64Max (u64Max - 5) 0 = .notStarted := by decide
  simp [h]

/-- **C4, amended** (corrected).  For every board whose `end_slot` is not
the `u64::MAX` "round not started" sentinel, the window check computes
`slots_remaining = max(0, end_slot − current_slot)` and enters Phase B
exactly when `slots_remaining ∈ (0, 10]`: `slots_remaining = 0` never
enters Phase B, and `slots_remaining = W_END = 10` does trigger entry. -/
theorem c4_phase_b_entry_iff
    (endSlot currentSlot consecutiveFailures : Nat)
    (hSentinel : endSlot ≠ u64Max) :
    ((slotsRemaining endSlot currentSlot : ℤ) =
        max 0 ((endSlot : ℤ) - (currentSlot : ℤ))) ∧
      (windowStep endSlot currentSlot consecutiveFailures =
          .enterPhaseB (slotsRemaining endSlot currentSlot) ↔
        0 < slotsRemaining endSlot currentSlot ∧
          slotsRemaining endSlot currentSlot ≤ submissionWindowSlots) := by
  constructor
  · unfold slotsRemaining
    split <;> push_cast <;> omega
  · unfold windowStep
    simp only [if_neg hSentinel]
    split
    · next h0 =>
      constructor
      · intro h
        exact absurd h (by simp [h0])
      · intro h
        omega
    · next h0 =>
      split
      · next hle => simp [hle, Nat.pos_of_ne_zero h0]
      · next hgt =>
        constructor
        · intro h
          exact absurd h (by simp)
        · intro h
          exact absurd h.2 hgt

/-- **C4, witness.**  At `end_slot = 100`, `current_slot = 90` the bound
holds: `slots_remaining = 10 = W_END` and Phase B is entered. -/
theorem c4_phase_b_entry_iff_witness :
    ((slotsRemaining 100 90 : ℤ) = max 0 ((100 : ℤ) - 90)) ∧
      (windowStep 100 90 0 = .enterPhaseB (slotsRemaining 100 90) ↔
        0 < slotsRemaining 100 90 ∧
          slotsRemaining 100 90 ≤ submissionWindowSlots) :=
  c4_phase_b_entry_iff 100 90 0 (by decide)

/-! ## C5 — selection ignores the configured strategy -/

/-- Inserting with `insertByLt` permutes `x :: l`. -/
theorem insertByLt_perm (lt : α → α → Bool) (x : α) (l : List α) :
    (insertByLt lt x l).Perm (x :: l) := by
  induction l with
  | nil => simp [insertByLt]
  | cons y ys ih =>
    by_cases h : lt y x = true
    · have h1 : insertByLt lt x (y :: ys) = y :: insertByLt lt x ys := by
        simp [insertByLt, h]
      rw [h1]
      exact (ih.cons y).trans (List.Perm.swap x y ys)
    · simp [insertByLt, h]

/-- `stableSortByLt` permutes its input. -/
theorem stableSortByLt_perm (lt : α → α → Bool) (l : List α) :
    (stableSortByLt lt l).Perm l := by
  induction l with
  | nil => simp [stableSortByLt]
  | cons x xs ih =>
    exact (insertByLt_perm lt x (stableSortByLt lt xs)).trans (ih.cons x)

/-- Inserting into a key-sorted list with the strict key comparison keeps
it key-sorted. -/
theorem insertByLt_pairwise_key (key : α → Nat) (x : α) (l : List α)
    (h : l.Pairwise fun a b => key a ≤ key b) :
    (insertByLt (fun a b => decide (key a < key b)) x l).Pairwise
      fun a b => key a ≤ key b := by
  induction l with
  | nil => simp [insertByLt]
  | cons y ys ih =>
    rcases List.pairwise_cons.mp h with ⟨hy, hys⟩
    by_cases hlt : key y < key x
    · have heq : insertByLt (fun a b => decide (key a < key b)) x (y :: ys)
          = y :: insertByLt (fun a b => decide (key a < key b)) x ys := by
        simp [insertByLt, hlt]
      rw [heq]
      refine List.pairwise_cons.mpr ⟨?_, ih hys⟩
      intro z hz
      rcases List.mem_cons.mp ((insertByLt_perm _ x ys).mem_iff.mp hz) with rfl | hz'
      · exact Nat.le_of_lt hlt
      · exact hy z hz'
    · have heq : insertByLt (fun a b => decide (key a < key b)) x (y :: ys)
          = x :: y :: ys := by
        simp [insertByLt, hlt]
      rw [heq]
      refine List.pairwise_cons.mpr ⟨?_, h⟩
      intro z hz
      rcases List.mem_cons.mp hz with rfl | hz'
      · exact Nat.le_of_not_lt hlt
      · exact le_trans (Nat.le_of_not_lt hlt) (hy z hz')

/-- `stableSortByLt` with a strict key comparison produces a key-sorted
list. -/
theorem stableSortByLt_pairwise_key (key : α → Nat) (l : List α) :
    (stableSortByLt (fun a b => decide (key a < key b)) l).Pairwise
      fun a b => key a ≤ key b := by
  induction l with
  | nil => simp [stableSortByLt]
  | cons x xs ih => exact insertByLt_pairwise_key key x _ ih

/-- **C5, counterexample.**  At the 25-square snapshot
`deployed = [1000, 999, 40000 × 23]` (consistent total 921 999),
`per_square_amount = 1`, `tip = 0`, `num_squares = 1`: squares 0 and 1 tie
at `potential_reward = ⌊921999/1001⌋ = ⌊921999/1000⌋ = 921` and hence at
`ev`, so the spec's BEST_EV policy (descending `ev`, ties by ascending
index) and its AGGRESSIVE policy (descending potential reward, same
tie-break) both pick square 0 — but the engine picks square 1, the
lowest-deployed square, because the mining loop sorts by stake only and
never consults the session's strategy. -/
theorem c5_strategy_ranking_counterexample :
    selectLowestStake ([1000, 999] ++ List.replicate 23 40000) 1 = [1] ∧
      specBestEvSelection ([1000, 999] ++ List.replicate 23 40000) 921999 1 0 1 = [0] ∧
      specAggressiveSelection ([1000, 999] ++ List.replicate 23 40000) 921999 1 0 1 = [0] ∧
      ([1000, 999] ++ List.replicate 23 40000 : List Nat).sum = 921999 := by
  refine ⟨by decide, ?_, ?_, by decide⟩ <;>
    norm_num [specBestEvSelection, specAggressiveSelection, calculateAllEv, calculateBlockEv,
      potentialReward, ourShare, List.enum, List.enumFrom, stableSortByLt, insertByLt]

/-- **C5, amended** (corrected).  The mining loop's selection ignores the
configured strategy (the selection code takes no strategy input at all):
for every grid and every `num_blocks`, each selected square's deployed
amount is at most that of every unselected square — the engine always
takes the lowest-deployed squares, with ties kept in ascending index
order by sort stability, under BEST_EV and AGGRESSIVE alike. -/
theorem c5_selection_is_lowest_stake (deployed : List Nat) (numBlocks i j : Nat)
    (hi : i ∈ selectLowestStake deployed numBlocks)
    (hj : j < deployed.length)
    (hjn : j ∉ selectLowestStake deployed numBlocks) :
    deployed.getD i 0 ≤ deployed.getD j 0 := by
  classical
  set sorted := stableSortByLt
    (fun a b : Nat × Nat => decide (a.2 < b.2)) deployed.enum with hsortedDef
  have hperm : sorted.Perm deployed.enum := stableSortByLt_perm _ _
  have hpair : sorted.Pairwise fun a b : Nat × Nat => a.2 ≤ b.2 :=
    stableSortByLt_pairwise_key Prod.snd deployed.enum
  obtain ⟨p, hpTake, hpFst⟩ := List.mem_map.mp hi
  have hpSorted : p ∈ sorted := List.mem_of_mem_take hpTake
  have hpEnum : p ∈ deployed.enum := hperm.mem_iff.mp hpSorted
  have hpGet : deployed[p.1]? = some p.2 := by
    have : (p.1, p.2) ∈ deployed.enum := by simpa using hpEnum
    exact List.mk_mem_enum_iff_getElem?.mp this
  have hiGetD : deployed.getD i 0 = p.2 := by
    rw [List.getD_eq_getElem?_getD, ← hpFst, hpGet]
    rfl
  have hjGet : deployed[j]? = some (deployed.getD j 0) := by
    rw [List.getD_eq_getElem?_getD, List.getElem?_eq_getElem hj]
    rfl
  have hjEnum : (j, deployed.getD j 0) ∈ deployed.enum :=
    List.mk_mem_enum_iff_getElem?.mpr hjGet
  have hjSorted : (j, deployed.getD j 0) ∈ sorted := hperm.mem_iff.mpr hjEnum
  have hjNotTake : (j, deployed.getD j 0) ∉ sorted.take numBlocks := by
    intro hc
    exact hjn (List.mem_map.mpr ⟨(j, deployed.getD j 0), hc, rfl⟩)
  have hjDrop : (j, deployed.getD j 0) ∈ sorted.drop numBlocks := by
    have h' := hjSorted
    rw [← List.take_append_drop numBlocks sorted] at h'
    rcases List.mem_append.mp h' with h'' | h''
    · exact absurd h'' hjNotTake
    · exact h''
  have hsplit := hpair
  rw [← List.take_append_drop numBlocks sorted] at hsplit
  have hle := (List.pairwise_append.mp hsplit).2.2 p hpTake
    (j, deployed.getD j 0) hjDrop
  rw [hiGetD]
  exact hle

/-- **C5, witness.**  At `deployed = [5, 3, 4]`, `num_blocks = 1` the
selection is `[1]`; the unselected square 0 carries at least as much
stake. -/
theorem c5_selection_is_lowest_stake_witness :
    ([5, 3, 4] : List Nat).getD 1 0 ≤ ([5, 3, 4] : List Nat).getD 0 0 :=
  c5_selection_is_lowest_stake [5, 3, 4] 1 1 0 (by decide) (by decide) (by decide)

/-! ## C6 — the EV formula truncates the potential reward to whole lamports -/

/-- **C6, counterexample.**  At the well-formed snapshot
`deployed = [1, 1, 1, 0 × 22]` (total 3), `per_square_amount = 1`,
`tip = 0`, square 0: the engine computes
`ev = ⌊3 · ½⌋ / 25 = 1/25`, while the §4.5 formula gives
`(½ · 3)/25 = 3/50`.  The gap is `1/50` — astronomically larger than one
ULP of any double of this magnitude (bounded by `2⁻⁵⁰`), because the code
truncates `potential_reward` to a whole `u64` before applying the win
probability. -/
theorem c6_one_ulp_counterexample :
    (calculateBlockEv 0 1 3 1 0).ev = 1 / 25 ∧
      specEvFormula 1 3 1 0 = 3 / 50 ∧
      |(calculateBlockEv 0 1 3 1 0).ev - specEvFormula 1 3 1 0| = 1 / 50 ∧
      (1 : ℚ) / 50 > doubleUlpBoundSmall ∧
      ([1, 1, 1] ++ List.replicate 22 0 : List Nat).sum = 3 := by
  refine ⟨?_, ?_, ?_, ?_, by decide⟩ <;>
    norm_num [calculateBlockEv, potentialReward, ourShare, specEvFormula,
      doubleUlpBoundSmall]

/-- **C6, amended** (corrected).  For every square with
`deployed + per_square_amount > 0`, the engine's expected value equals
`⌊share × total_deployed⌋ / 25 − tip` — the potential reward is truncated
to a whole number of lamports (`as u64`) before the `1/25` win
probability — so it falls short of the §4.5 real-number formula
`(share × total_deployed)/25 − tip` by `fract(share × total)/25`, which is
nonnegative and below `1/25` of a lamport (but can far exceed 1 ULP). -/
theorem c6_ev_truncation_bound (i d total amount tip : Nat)
    (h : 0 < d + amount) :
    (calculateBlockEv i d total amount tip).ev =
        ((⌊(total : ℚ) * ((amount : ℚ) / ((d : ℚ) + (amount : ℚ)))⌋ : ℤ) : ℚ) / 25
          - (tip : ℚ) ∧
      0 ≤ specEvFormula d total amount tip - (calculateBlockEv i d total amount tip).ev ∧
      specEvFormula d total amount tip - (calculateBlockEv i d total amount tip).ev
        < 1 / 25 := by
  have hshare : ourShare d amount = (amount : ℚ) / ((d : ℚ) + (amount : ℚ)) := by
    unfold ourShare
    rw [if_pos h]
    push_cast
    ring
  set x : ℚ := (total : ℚ) * ((amount : ℚ) / ((d : ℚ) + (amount : ℚ))) with hx
  have hx0 : 0 ≤ x := by
    apply mul_nonneg (Nat.cast_nonneg total)
    apply div_nonneg (Nat.cast_nonneg amount)
    positivity
  have hpr : potentialReward total d amount = (⌊x⌋).toNat := by
    unfold potentialReward
    rw [hshare]
  have hprCast : ((potentialReward total d amount : Nat) : ℚ) = ((⌊x⌋ : ℤ) : ℚ) := by
    rw [hpr]
    calc (((⌊x⌋).toNat : Nat) : ℚ) = ((((⌊x⌋).toNat : Nat) : ℤ) : ℚ) := by
          rw [Int.cast_natCast]
      _ = ((⌊x⌋ : ℤ) : ℚ) := by
          rw [Int.toNat_of_nonneg (Int.floor_nonneg.mpr hx0)]
  have hev : (calculateBlockEv i d total amount tip).ev
      = ((⌊x⌋ : ℤ) : ℚ) / 25 - (tip : ℚ) := by
    show (potentialReward total d amount : ℚ) * (1 / 25) - (tip : ℚ) = _
    rw [hprCast]
    ring
  have hspec : specEvFormula d total amount tip = x / 25 - (tip : ℚ) := by
    unfold specEvFormula
    rw [hx]
    ring
  refine ⟨hev, ?_, ?_⟩
  · rw [hev, hspec]
    have : x / 25 - (tip : ℚ) - (((⌊x⌋ : ℤ) : ℚ) / 25 - (tip : ℚ))
        = Int.fract x / 25 := by
      rw [Int.fract]
      ring
    rw [this]
    exact div_nonneg (Int.fract_nonneg x) (by norm_num)
  · rw [hev, hspec]
    have : x / 25 - (tip : ℚ) - (((⌊x⌋ : ℤ) : ℚ) / 25 - (tip : ℚ))
        = Int.fract x / 25 := by
      rw [Int.fract]
      ring
    rw [this]
    have h1 : Int.fract x < 1 := Int.fract_lt_one x
    linarith

/-- **C6, witness.**  The truncation bound instantiated at square 0 of the
counterexample snapshot. -/
theorem c6_ev_truncation_bound_witness :
    (calculateBlockEv 0 1 3 1 0).ev =
        ((⌊(3 : ℚ) * ((1 : ℚ) / ((1 : ℚ) + (1 : ℚ)))⌋ : ℤ) : ℚ) / 25 - (0 : ℚ) ∧
      0 ≤ specEvFormula 1 3 1 0 - (calculateBlockEv 0 1 3 1 0).ev ∧
      specEvFormula 1 3 1 0 - (calculateBlockEv 0 1 3 1 0).ev < 1 / 25 := by
  have h := c6_ev_truncation_bound 0 1 3 1 0 (by norm_num)
  simpa using h

/-! ## C7 — encoding negotiation of `send_bundle` -/

/-- **C7, counterexample.**  When the endpoint answers the base64 attempt
with HTTP success but a JSON-RPC `error` field whose message is
decode-style ("transaction could not be decoded"), `send_bundle` returns
`Failed` after the base64 attempt alone — no base58 retry — contradicting
the claim that a decode-style rejection always triggers exactly one base58
retry.  (The retry fires only on HTTP *status* errors with a decode-style
body.) -/
theorem c7_jsonrpc_decode_error_counterexample :
    isDecodeErrText "transaction could not be decoded" = true ∧
      sendBundle (.httpOk (some "transaction could not be decoded")) (.httpOk none)
        = (.failed "transaction could not be decoded", [.base64]) := by
  constructor
  · decide
  · rfl

/-- **C7, amended** (corrected).  `send_bundle` first attempts base64.  It
retries (exactly once, with base58) **iff** the base64 attempt fails at
the HTTP-status level with a body matching a "could not be decoded"-style
phrase; an HTTP-successful response with a JSON-RPC `error` field — even a
decode-style one — is terminal `Failed`, as are transport errors and
non-decode HTTP errors.  An HTTP-successful, error-free response yields
`Pending`. -/
theorem c7_encoding_negotiation (r64 r58 : EndpointResponse) :
    ((sendBundle r64 r58).2 = [TxEncoding.base64, TxEncoding.base58] ↔
        ∃ st body, r64 = .httpErr st body ∧
          isDecodeErrText (httpReason st body) = true) ∧
      ((sendBundle r64 r58).2 = [TxEncoding.base64] ∨
        (sendBundle r64 r58).2 = [TxEncoding.base64, TxEncoding.base58]) ∧
      (r64 = .httpOk none → (sendBundle r64 r58).1 = .pending) ∧
      (∀ e, r64 = .httpOk (some e) → (sendBundle r64 r58).1 = .failed e) ∧
      (∀ m, r64 = .netErr m → (sendBundle r64 r58).1 = .failed m) := by
  rcases r64 with m | je | ⟨st, body⟩
  · simp [sendBundle, bundleAttempt]
  · rcases je with _ | e <;> simp [sendBundle, bundleAttempt]
  · by_cases hdec : isDecodeErrText (httpReason st body) = true
    · rcases r58 with m' | je' | ⟨st', body'⟩
      · simp [sendBundle, bundleAttempt, hdec]
        exact ⟨st, body, ⟨rfl, rfl⟩, hdec⟩
      · rcases je' with _ | e' <;> simp [sendBundle, bundleAttempt, hdec] <;>
          exact ⟨st, body, ⟨rfl, rfl⟩, hdec⟩
      · simp [sendBundle, bundleAttempt, hdec]
        exact ⟨st, body, ⟨rfl, rfl⟩, hdec⟩
    · simp only [Bool.not_eq_true] at hdec
      simp [sendBundle, bundleAttempt, hdec]

/-- **C7, witness.**  With an HTTP 400 "could not be decoded" body on the
base64 attempt and a clean base58 response, both encodings are attempted. -/
theorem c7_encoding_negotiation_witness :
    (sendBundle (.httpErr 400 "could not be decoded") (.httpOk none)).2
      = [TxEncoding.base64, TxEncoding.base58] :=
  ((c7_encoding_negotiation (.httpErr 400 "could not be decoded")
      (.httpOk none)).1).mpr ⟨400, "could not be decoded", rfl, by decide⟩

/-! ## C8 — the signer performs no blockhash-age check -/

/-- **C8, counterexample.**  A transaction whose recent blockhash is 31
seconds old (older than the claimed 30-second `MAX_SIGN_BLOCKHASH_AGE`) is
signed successfully whenever a keypair is stored: `sign_transaction`
returns `Ok`, not an error. -/
theorem c8_stale_blockhash_counterexample :
    (31 > 30) ∧
      signTransaction true { blockhashAgeSecs := 31, signed := false }
        = .ok { blockhashAgeSecs := 31, signed := true } := by
  constructor
  · decide
  · rfl

/-- **C8, amended** (corrected).  `sign_transaction` refuses only when no
keypair is stored for the wallet; it performs no blockhash-age check at
all, signing transactions of every blockhash age (there is no
`MAX_SIGN_BLOCKHASH_AGE` in the code). -/
theorem c8_sign_checks_only_keypair (hasKeypair : Bool) (tx : SignerTx) :
    (signTransaction hasKeypair tx).isOk = hasKeypair ∧
      (signTransaction hasKeypair tx = .ok { tx with signed := true } ↔
        hasKeypair = true) ∧
      (signTransaction hasKeypair tx = .error "Wallet not found" ↔
        hasKeypair = false) := by
  cases hasKeypair <;> simp [signTransaction, Except.isOk, Except.toBool]

/-- **C8, witness.**  The characterization instantiated at a stored
keypair and a 1000-second-old blockhash: the signature succeeds. -/
theorem c8_sign_checks_only_keypair_witness :
    (signTransaction true { blockhashAgeSecs := 1000, signed := false }).isOk
      = true :=
  (c8_sign_checks_only_keypair true
    { blockhashAgeSecs := 1000, signed := false }).1

/-! ## C9 — no "already running" check in the session supervisor -/

/-- **C9, counterexample.**  Starting a session for wallet `"w"` while one
is already active (registry `[("w", 1)]`, one driver running) succeeds
with `Ok` — no `ConfigInvalid{"already running"}` — replaces the registry
entry with the new session, and spawns a second driver task. -/
theorem c9_duplicate_start_counterexample :
    startSessionHandler ⟨[("w", 1)], 1⟩ "w" 1 0 1 true 2
      = (⟨[("w", 2)], 2⟩, .ok 2) := by
  norm_num [startSessionHandler, engineStartSession, insertSession]

/-- **C9, amended** (corrected).  For every validly-configured request
(amount/tip/budget in range, DB insert succeeding), `start_session`
returns `Ok` regardless of whether the wallet already has an active
session: the registry entry is unconditionally replaced
(`HashMap::insert`) and an additional driver task is spawned.  No
duplicate check and no `ConfigInvalid{"already running"}` error exist. -/
theorem c9_start_never_rejects_duplicates (st : EngineState) (wallet : String)
    (deployAmount maxTip budget : ℚ) (sessionId : Nat)
    (h1 : 0 < deployAmount) (h2 : deployAmount ≤ 10)
    (h3 : 0 ≤ maxTip) (h4 : maxTip ≤ 1) (h5 : 0 < budget) :
    startSessionHandler st wallet deployAmount maxTip budget true sessionId
        = (engineStartSession st wallet sessionId, .ok sessionId) ∧
      (engineStartSession st wallet sessionId).driversSpawned
        = st.driversSpawned + 1 ∧
      (engineStartSession st wallet sessionId).sessions
        = (wallet, sessionId) :: st.sessions.filter fun p => p.1 ≠ wallet := by
  refine ⟨?_, rfl, rfl⟩
  simp [startSessionHandler, h1, h2, h3, h4, h5]

/-- **C9, witness.**  The no-rejection theorem applied to a registry in
which wallet `"w"` is already active: the second start is accepted and the
driver count rises to 2. -/
theorem c9_start_never_rejects_duplicates_witness :
    startSessionHandler ⟨[("w", 1)], 1⟩ "w" 1 0 1 true 2
        = (engineStartSession ⟨[("w", 1)], 1⟩ "w" 2, .ok 2) ∧
      (engineStartSession (⟨[("w", 1)], 1⟩ : EngineState) "w" 2).driversSpawned
        = 1 + 1 ∧
      (engineStartSession (⟨[("w", 1)], 1⟩ : EngineState) "w" 2).sessions
        = ("w", 2) :: ([("w", 1)] : List (String × Nat)).filter fun p => p.1 ≠ "w" :=
  c9_start_never_rejects_duplicates ⟨[("w", 1)], 1⟩ "w" 1 0 1 2
    (by norm_num) (by norm_num) (by norm_num) (by norm_num) (by norm_num)

/-! ## C1 and C3 — transaction sequencing of `submit_deploy` -/

/-- Every transaction the checkpoint phase sends is signed and carries
neither a deploy nor an automate instruction. -/
theorem checkpointPhase_tx_props (env : DeployEnv) (r : Nat) :
    ∀ t ∈ (checkpointPhase env r).1,
      txHasDeploy t = false ∧ txHasAutomate t = false ∧ t.signed = true := by
  rcases hm : env.miner with _ | m
  · simp [checkpointPhase, hm]
  · by_cases hcp : needsCheckpoint m r = true
    · rcases hbh : env.cpBlockhash with e | bh
      · simp [checkpointPhase, hm, hcp, hbh]
      · cases hwm : env.hasWalletManager
        · simp [checkpointPhase, hm, hcp, hbh, hwm]
        · cases hk : env.hasKeypair
          · simp [checkpointPhase, hm, hcp, hbh, hwm, hk]
          · simp [checkpointPhase, hm, hcp, hbh, hwm, hk, txHasDeploy, txHasAutomate]
    · simp [checkpointPhase, hm, hcp]

/-- Every transaction the automation phase sends carries neither a deploy
nor a checkpoint instruction. -/
theorem automatePhase_tx_props (env : DeployEnv) (amt : Nat) (sq : List Bool) :
    ∀ t ∈ (automatePhase env amt sq).1,
      txHasDeploy t = false ∧ txHasCheckpoint t = false := by
  by_cases hd : depositNeeded env amt sq > 0
  · rcases hbh : env.autoBlockhash with e | bh
    · simp [automatePhase, hd, hbh]
    · cases hwm : env.hasWalletManager
      · simp [automatePhase, hd, hbh, hwm]
      · cases hk : env.hasKeypair
        · simp [automatePhase, hd, hbh, hwm, hk]
        · simp [automatePhase, hd, hbh, hwm, hk, txHasDeploy, txHasCheckpoint]
  · simp [automatePhase, hd]

/-- When no deposit is needed the automation phase is a no-op. -/
theorem automatePhase_of_no_deposit (env : DeployEnv) (amt : Nat) (sq : List Bool)
    (h : depositNeeded env amt sq = 0) :
    automatePhase env amt sq = ([], none) := by
  simp [automatePhase, h]

/-- When a deposit is needed and the phase did not abort, signing was
available and exactly the funding `automate` transaction (deposit =
`depositNeeded`) was sent. -/
theorem automatePhase_of_deposit (env : DeployEnv) (amt : Nat) (sq : List Bool)
    (hd : 0 < depositNeeded env amt sq)
    (hnone : (automatePhase env amt sq).2 = none)
    (hwm : env.hasWalletManager = true) :
    env.hasKeypair = true ∧ ∃ bh, env.autoBlockhash = .ok bh ∧
      (automatePhase env amt sq).1 =
        [{ instructions := [.computeUnitLimit 400000, .computeUnitPrice 100000,
             .automate amt (depositNeeded env amt sq) 0 0 2 false]
           payerIsWallet := true, blockhash := bh, signed := true }] := by
  rcases hbh : env.autoBlockhash with e | bh
  · exfalso
    simp [automatePhase, hd, hbh] at hnone
  · cases hk : env.hasKeypair
    · exfalso
      simp [automatePhase, hd, hbh, hwm, hk] at hnone
    · refine ⟨rfl, bh, rfl, ?_⟩
      simp [automatePhase, hd, hbh, hwm, hk]

/-- When the miner account needs a checkpoint and the phase did not abort,
signing was available and exactly the checkpoint transaction settling the
miner's `round_id` was sent. -/
theorem checkpointPhase_of_needed (env : DeployEnv) (r : Nat) (m : MinerData)
    (hm : env.miner = some m)
    (hcp : needsCheckpoint m r = true)
    (hnone : (checkpointPhase env r).2 = none)
    (hwm : env.hasWalletManager = true) :
    env.hasKeypair = true ∧ ∃ bh, env.cpBlockhash = .ok bh ∧
      (checkpointPhase env r).1 =
        [{ instructions := [.computeUnitLimit 50000, .computeUnitPrice 100000,
             .checkpoint m.roundId]
           payerIsWallet := true, blockhash := bh, signed := true }] := by
  rcases hbh : env.cpBlockhash with e | bh
  · exfalso
    simp [checkpointPhase, hm, hcp, hbh] at hnone
  · cases hk : env.hasKeypair
    · exfalso
      simp [checkpointPhase, hm, hcp, hbh, hwm, hk] at hnone
    · refine ⟨rfl, bh, rfl, ?_⟩
      simp [checkpointPhase, hm, hcp, hbh, hwm, hk]

/-- The submission trace decomposes into the three phase traces whenever
neither reconciliation phase aborted. -/
theorem submitDeploy_trace_eq (env : DeployEnv) (amt : Nat) (sq : List Bool)
    (hwv : env.walletValid = true) (b : BoardState) (hb : env.board = .ok b)
    (hcp : (checkpointPhase env b.roundId).2 = none)
    (ha : (automatePhase env amt sq).2 = none) :
    (submitDeploy env amt sq).1 =
      (checkpointPhase env b.roundId).1 ++ (automatePhase env amt sq).1
        ++ (deployPhase env b.roundId amt sq).1 := by
  rcases hcpEq : checkpointPhase env b.roundId with ⟨cpTxs, cpO⟩
  rcases haEq : automatePhase env amt sq with ⟨aTxs, aO⟩
  rcases hdpEq : deployPhase env b.roundId amt sq with ⟨dTxs, dRes⟩
  have hcpO : cpO = none := by rw [hcpEq] at hcp; exact hcp
  have haO : aO = none := by rw [haEq] at ha; exact ha
  subst hcpO haO
  unfold submitDeploy
  rw [hwv, hb]
  simp [hcpEq, haEq, hdpEq]

/-- If the submission trace carries a deploy transaction then the wallet
parsed, the board read succeeded, neither reconciliation phase aborted,
server-side signing was available, and the deploy phase sent exactly the
compute-budget-prefixed deploy transaction for the board's round. -/
theorem submitDeploy_any_deploy (env : DeployEnv) (amt : Nat) (sq : List Bool)
    (h : (submitDeploy env amt sq).1.any txHasDeploy = true) :
    ∃ b bh, env.walletValid = true ∧ env.board = .ok b ∧
      (checkpointPhase env b.roundId).2 = none ∧
      (automatePhase env amt sq).2 = none ∧
      env.hasWalletManager = true ∧ env.hasKeypair = true ∧
      env.deployBlockhash = .ok bh ∧
      (deployPhase env b.roundId amt sq).1 =
        [{ instructions := [.computeUnitLimit 500000, .computeUnitPrice 100000,
             .deploy amt b.roundId sq]
           payerIsWallet := true, blockhash := bh, signed := true }] := by
  cases hwv : env.walletValid
  · exfalso
    rw [submitDeploy, hwv] at h
    simp at h
  · rcases hb : env.board with e | b
    · exfalso
      rw [submitDeploy, hwv] at h
      simp [hb] at h
    · rcases hcpEq : checkpointPhase env b.roundId with ⟨cpTxs, cpO⟩
      rcases cpO with _ | e
      · rcases haEq : automatePhase env amt sq with ⟨aTxs, aO⟩
        rcases aO with _ | e
        · rcases hdb : env.deployBlockhash with e | bh
          · exfalso
            have hdp : (deployPhase env b.roundId amt sq).1 = [] := by
              unfold deployPhase
              rw [hdb]
            have htr := submitDeploy_trace_eq env amt sq hwv b hb
              (by rw [hcpEq]) (by rw [haEq])
            rw [htr, hdp] at h
            rcases List.any_eq_true.mp h with ⟨t, ht, hdep⟩
            rcases List.mem_append.mp ht with ht' | ht'
            · rcases List.mem_append.mp ht' with ht'' | ht''
              · have := (checkpointPhase_tx_props env b.roundId t ht'').1
                rw [this] at hdep
                exact Bool.false_ne_true hdep
              · have := (automatePhase_tx_props env amt sq t ht'').1
                rw [this] at hdep
                exact Bool.false_ne_true hdep
            · simp at ht'
          · cases hwm : env.hasWalletManager
            · exfalso
              have hdp : (deployPhase env b.roundId amt sq).1 = [] := by
                unfold deployPhase
                rw [hdb, hwm]
                simp
              have htr := submitDeploy_trace_eq env amt sq hwv b hb
                (by rw [hcpEq]) (by rw [haEq])
              rw [htr, hdp] at h
              rcases List.any_eq_true.mp h with ⟨t, ht, hdep⟩
              rcases List.mem_append.mp ht with ht' | ht'
              · rcases List.mem_append.mp ht' with ht'' | ht''
                · have := (checkpointPhase_tx_props env b.roundId t ht'').1
                  rw [this] at hdep
                  exact Bool.false_ne_true hdep
                · have := (automatePhase_tx_props env amt sq t ht'').1
                  rw [this] at hdep
                  exact Bool.false_ne_true hdep
              · simp at ht'
            · cases hk : env.hasKeypair
              · exfalso
                have hdp : (deployPhase env b.roundId amt sq).1 = [] := by
                  unfold deployPhase
                  rw [hdb, hwm, hk]
                  simp
                have htr := submitDeploy_trace_eq env amt sq hwv b hb
                  (by rw [hcpEq]) (by rw [haEq])
                rw [htr, hdp] at h
                rcases List.any_eq_true.mp h with ⟨t, ht, hdep⟩
                rcases List.mem_append.mp ht with ht' | ht'
                · rcases List.mem_append.mp ht' with ht'' | ht''
                  · have := (checkpointPhase_tx_props env b.roundId t ht'').1
                    rw [this] at hdep
                    exact Bool.false_ne_true hdep
                  · have := (automatePhase_tx_props env amt sq t ht'').1
                    rw [this] at hdep
                    exact Bool.false_ne_true hdep
                · simp at ht'
              · refine ⟨b, bh, rfl, rfl, by rw [hcpEq], rfl, rfl, rfl, rfl, ?_⟩
                rcases hds : env.deploySendResult with e | s <;>
                  · unfold deployPhase
                    rw [hdb, hwm, hk, hds]
                    simp
        · exfalso
          have htr : (submitDeploy env amt sq).1 = cpTxs ++ aTxs := by
            unfold submitDeploy
            rw [hwv, hb]
            simp [hcpEq, haEq]
          rw [htr] at h
          rcases List.any_eq_true.mp h with ⟨t, ht, hdep⟩
          rcases List.mem_append.mp ht with ht' | ht'
          · have := (checkpointPhase_tx_props env b.roundId t
              (by rw [hcpEq]; exact ht')).1
            rw [this] at hdep
            exact Bool.false_ne_true hdep
          · have := (automatePhase_tx_props env amt sq t
              (by rw [haEq]; exact ht')).1
            rw [this] at hdep
            exact Bool.false_ne_true hdep
      · exfalso
        have htr : (submitDeploy env amt sq).1 = cpTxs := by
          unfold submitDeploy
          rw [hwv, hb]
          simp [hcpEq]
        rw [htr] at h
        rcases List.any_eq_true.mp h with ⟨t, ht, hdep⟩
        have := (checkpointPhase_tx_props env b.roundId t
          (by rw [hcpEq]; exact ht)).1
        rw [this] at hdep
        exact Bool.false_ne_true hdep

/-- `getD` at the index right after a prefix `l` picks the singleton's
element. -/
theorem list_getD_last_of_append (l : List α) (a d : α) :
    (l ++ [a]).getD l.length d = a := by
  rw [List.getD_append_right _ _ _ _ (le_refl _)]
  simp

/-- In `(l ++ [a]) ++ r`, index `l.length` reads `a`. -/
theorem list_getD_first_of_sandwich (l : List α) (a : α) (r : List α) (d : α) :
    ((l ++ [a]) ++ r).getD l.length d = a := by
  rw [List.getD_append _ _ _ _ (by simp)]
  exact list_getD_last_of_append l a d

/-- In `(l ++ [a]) ++ [b]`, index `l.length + 1` reads `b`. -/
theorem list_getD_snd_of_sandwich (l : List α) (a b d : α) :
    ((l ++ [a]) ++ [b]).getD (l.length + 1) d = b := by
  have hlen : (l ++ [a]).length = l.length + 1 := by simp
  rw [List.getD_append_right _ _ _ _ (by omega)]
  simp [hlen]

/-- **C1** (confirmed).  Whenever `submit_deploy` submits a deploy
transaction for a wallet whose miner account exists with
`checkpoint_id ≠ round_id`, or with `round_id > 0` and `round_id` below
the current board round, a signed checkpoint transaction settling the
miner's `round_id` appears strictly earlier in the submission trace, and
no transaction in the trace carries a checkpoint instruction together
with a deploy instruction. -/
theorem c1_checkpoint_precedes_deploy (env : DeployEnv) (amt : Nat)
    (sq : List Bool) (m : MinerData) (b : BoardState)
    (hm : env.miner = some m) (hb : env.board = .ok b)
    (hcp : needsCheckpoint m b.roundId = true)
    (hdep : (submitDeploy env amt sq).1.any txHasDeploy = true) :
    ∃ i j, i < j ∧ j < (submitDeploy env amt sq).1.length ∧
      txHasCheckpointFor m.roundId
        ((submitDeploy env amt sq).1.getD i default) = true ∧
      ((submitDeploy env amt sq).1.getD i default).signed = true ∧
      txHasDeploy ((submitDeploy env amt sq).1.getD j default) = true ∧
      ∀ t ∈ (submitDeploy env amt sq).1,
        ¬(txHasCheckpoint t = true ∧ txHasDeploy t = true) := by
  obtain ⟨b', bh, hwv, hb', hcpNone, haNone, hwm, hk, hdb, hdpEq⟩ :=
    submitDeploy_any_deploy env amt sq hdep
  rw [hb] at hb'
  injection hb' with hbb
  subst hbb
  obtain ⟨hk2, cbh, hcbh, hcpTxs⟩ :=
    checkpointPhase_of_needed env b.roundId m hm hcp hcpNone hwm
  have htr := submitDeploy_trace_eq env amt sq hwv b hb hcpNone haNone
  rw [hcpTxs, hdpEq, List.singleton_append, List.cons_append] at htr
  refine ⟨0, (automatePhase env amt sq).1.length + 1, by omega, ?_, ?_, ?_, ?_, ?_⟩
  · rw [htr]
    simp
  · rw [htr, List.getD_cons_zero]
    simp [txHasCheckpointFor]
  · rw [htr, List.getD_cons_zero]
  · rw [htr, List.getD_cons_succ]
    rw [list_getD_last_of_append]
    simp [txHasDeploy]
  · intro t ht hct
    rw [htr] at ht
    rcases List.mem_cons.mp ht with rfl | ht'
    · simp [txHasDeploy] at hct
    · rcases List.mem_append.mp ht' with ht'' | ht''
      · have := (automatePhase_tx_props env amt sq t ht'').1
        rw [this] at hct
        exact Bool.false_ne_true hct.2
      · obtain rfl := List.mem_singleton.mp ht''
        simp [txHasCheckpoint] at hct

/-- **C1, witness.**  The spec's scenario 3 — miner `round_id_last = 101`,
`checkpoint_id = 100`, board round 103, fully-available environment — at a
3-square deploy: a signed checkpoint for round 101 precedes the deploy
transaction. -/
theorem c1_checkpoint_precedes_deploy_witness :
    ∃ i j, i < j ∧
      j < (submitDeploy (happyEnv (some minerNeedingCheckpoint)
          (.ok 1000000000000)) 100000000
          ([true, true, true] ++ List.replicate 22 false)).1.length ∧
      txHasCheckpointFor minerNeedingCheckpoint.roundId
        ((submitDeploy (happyEnv (some minerNeedingCheckpoint)
            (.ok 1000000000000)) 100000000
            ([true, true, true] ++ List.replicate 22 false)).1.getD i default)
          = true ∧
      ((submitDeploy (happyEnv (some minerNeedingCheckpoint)
          (.ok 1000000000000)) 100000000
          ([true, true, true] ++ List.replicate 22 false)).1.getD i
          default).signed = true ∧
      txHasDeploy ((submitDeploy (happyEnv (some minerNeedingCheckpoint)
          (.ok 1000000000000)) 100000000
          ([true, true, true] ++ List.replicate 22 false)).1.getD j default)
        = true ∧
      ∀ t ∈ (submitDeploy (happyEnv (some minerNeedingCheckpoint)
          (.ok 1000000000000)) 100000000
          ([true, true, true] ++ List.replicate 22 false)).1,
        ¬(txHasCheckpoint t = true ∧ txHasDeploy t = true) :=
  c1_checkpoint_precedes_deploy _ _ _ minerNeedingCheckpoint
    { roundId := 103, startSlot := 1000, endSlot := 1150, epochId := 1 }
    rfl rfl (by decide) (by decide)

/-- **C3** (confirmed).  Whenever `submit_deploy` submits a deploy over a
mask with at least one selected square (and `per_square_amount ×
|selected|` does not overflow `u64`), with `needed = per_square_amount ×
|selected|`: if the automation balance read is strictly below `needed`, an
automate transaction depositing exactly `needed − balance` appears in the
trace strictly before the deploy transaction; if the balance covers
`needed`, no automate transaction is sent at all. -/
theorem c3_automation_funding (env : DeployEnv) (amt : Nat) (sq : List Bool)
    (hdep : (submitDeploy env amt sq).1.any txHasDeploy = true)
    (hcnt : 0 < (sq.filter id).length)
    (hsat : amt * (sq.filter id).length ≤ u64Max) :
    (automationBalance env < amt * (sq.filter id).length →
        ∃ i j, i < j ∧ j < (submitDeploy env amt sq).1.length ∧
          txHasAutomateDeposit
              (amt * (sq.filter id).length - automationBalance env)
              ((submitDeploy env amt sq).1.getD i default) = true ∧
          txHasDeploy ((submitDeploy env amt sq).1.getD j default) = true) ∧
      (amt * (sq.filter id).length ≤ automationBalance env →
        ∀ t ∈ (submitDeploy env amt sq).1, txHasAutomate t = false) := by
  obtain ⟨b, bh, hwv, hb, hcpNone, haNone, hwm, hk, hdb, hdpEq⟩ :=
    submitDeploy_any_deploy env amt sq hdep
  have hneed : neededBalance amt sq = amt * (sq.filter id).length := by
    unfold neededBalance satMulU64
    rw [Nat.max_eq_left hcnt]
    exact Nat.min_eq_left hsat
  constructor
  · intro hlt
    have hdPos : 0 < depositNeeded env amt sq := by
      unfold depositNeeded
      rw [hneed, if_neg (by omega)]
      omega
    have hdVal : depositNeeded env amt sq
        = amt * (sq.filter id).length - automationBalance env := by
      unfold depositNeeded
      rw [hneed, if_neg (by omega)]
    obtain ⟨hk2, abh, habh, haTxs⟩ :=
      automatePhase_of_deposit env amt sq hdPos haNone hwm
    have htr := submitDeploy_trace_eq env amt sq hwv b hb hcpNone haNone
    rw [haTxs, hdpEq] at htr
    refine ⟨(checkpointPhase env b.roundId).1.length,
      (checkpointPhase env b.roundId).1.length + 1, by omega, ?_, ?_, ?_⟩
    · rw [htr]
      simp
    · rw [htr, list_getD_first_of_sandwich]
      simp [txHasAutomateDeposit, hdVal]
    · rw [htr, list_getD_snd_of_sandwich]
      simp [txHasDeploy]
  · intro hge
    have hdZero : depositNeeded env amt sq = 0 := by
      unfold depositNeeded
      rw [hneed, if_pos hge]
    have haEq := automatePhase_of_no_deposit env amt sq hdZero
    have htr := submitDeploy_trace_eq env amt sq hwv b hb hcpNone haNone
    rw [hdpEq, show (automatePhase env amt sq).1 = [] from by rw [haEq]] at htr
    intro t ht
    rw [htr] at ht
    rcases List.mem_append.mp ht with ht' | ht'
    · rcases List.mem_append.mp ht' with ht'' | ht''
      · exact (checkpointPhase_tx_props env b.roundId t ht'').2.1
      · simp at ht''
    · obtain rfl := List.mem_singleton.mp ht'
      simp [txHasAutomate]

/-- **C3, witness.**  The spec's scenario 4 shape: two squares selected at
10 lamports per square with an automation balance of 5 — needed 20,
deposit 15 — the automate transaction precedes the deploy; and the same
call shape with a large balance sends no automate transaction. -/
theorem c3_automation_funding_witness :
    (automationBalance (happyEnv none (.ok 5)) < 10 *
        (([true, true] ++ List.replicate 23 false).filter id).length →
        ∃ i j, i < j ∧
          j < (submitDeploy (happyEnv none (.ok 5)) 10
              ([true, true] ++ List.replicate 23 false)).1.length ∧
          txHasAutomateDeposit
              (10 * (([true, true] ++ List.replicate 23 false).filter id).length
                - automationBalance (happyEnv none (.ok 5)))
              ((submitDeploy (happyEnv none (.ok 5)) 10
                ([true, true] ++ List.replicate 23 false)).1.getD i default)
            = true ∧
          txHasDeploy ((submitDeploy (happyEnv none (.ok 5)) 10
              ([true, true] ++ List.replicate 23 false)).1.getD j default)
            = true) ∧
      (10 * (([true, true] ++ List.replicate 23 false).filter id).length ≤
          automationBalance (happyEnv none (.ok 5)) →
        ∀ t ∈ (submitDeploy (happyEnv none (.ok 5)) 10
            ([true, true] ++ List.replicate 23 false)).1,
          txHasAutomate t = false) :=
  c3_automation_funding (happyEnv none (.ok 5)) 10
    ([true, true] ++ List.replicate 23 false)
    (by decide) (by decide) (by decide)

end OREvault
